import Mathlib

/-!
Verification of the cache-and-prefetch core of the TiebaWidget repository
(`src/scripts/get-entry.js`), via a shallow embedding.

Modelling conventions:
* JavaScript objects with optional fields become structures with `Option` fields;
  JS truthiness of those fields is made explicit (`jsTruthyB`, `jsTruthyS`).
* The ambient platform APIs (`$http`, `$file`, `$cache`, `$prefs`, `Date`) are an
  explicit environment `Env`; the filesystem is a list of existing file paths.
* `Promise.allSettled` fan-outs are sequentialized in list order: the embedding
  performs each download in turn, which realizes one admissible interleaving of
  the single-threaded cooperative scheduler.  A rejected promise is modelled as
  the boolean result `false`.
* Numeric timestamps are `Nat` milliseconds; the JS subtraction `now - date`
  is computed in `Int` so that a future `date` behaves as in JS.
-/

set_option maxHeartbeats 1600000

namespace TiebaWidget

/-- JS truthiness of an optional boolean property: only `true` is truthy. -/
def jsTruthyB (o : Option Bool) : Bool := o.getD false

/-- JS truthiness of an optional string property: absent and `""` are falsy. -/
def jsTruthyS (o : Option String) : Bool := !(o.getD "").isEmpty

/-- One fetched post (`item` in `get-entry.js`): optional `abstract`,
the candidate image URLs `imgUrls`, and the resumable download state
`imgDownloaded` / `imgPaths` (both absent until first touched). -/
structure Item where
  abstract : Option String
  imgUrls : List String
  imgDownloaded : Option Bool
  imgPaths : Option (List String)
deriving DecidableEq

/-- One cached record per tieba name, as written by `getEntry`
(`{ items, date, imgAllDownloaded }`).  `items` and `date` are `Option`
because `isCacheValid` guards against their absence in a stored value. -/
structure CacheRecord where
  items : Option (List Item)
  date : Option Nat
  imgAllDownloaded : Bool
deriving DecidableEq

/-- Response of a `$http.request({method: HEAD})` size probe:
`expectedContentLength` is absent when the platform reports no length. -/
structure HeadResp where
  error : Bool
  expectedContentLength : Option Nat
deriving DecidableEq

/-- Response of a `$http.get` image download (its raw data is opaque to the
model; write success is a function of the target path in `Env`). -/
structure GetResp where
  error : Bool
  statusCode : Nat
deriving DecidableEq

/-- Modelled from the spec: the configuration constants of `constant.js`,
whose source is not under `src/`; they are kept as named parameters
(`MAX_IMAGE_SIZE`, `MAX_ABSTRACT_LEN_ALLOWING_TWO_IMAGES`,
`IMAGE_DOWNLOAD_DIR`, `DEFAULT_REFRESH_CIRCLE`). -/
structure Config where
  maxImageSize : Nat
  maxAbstractLenAllowingTwoImages : Nat
  imageDownloadDir : String
  defaultRefreshCircle : Nat

/-- The ambient platform of `get-entry.js`.
`headReq`, `getReq` model `$http` (deterministic per URL within one run);
`writeOk` models `$file.write` success per target path;
`prepare` abstracts `prepareForImageDownload` (directory housekeeping through
`$file` and `getFileMTime`; `none` = preparation failed, `some fs1` = the
filesystem after it ran);
`fetchResult` is the outcome of `tryGetTiebaPostWithTimeout` (`none` = the
remote fetch failed or timed out);
`imagePassTimeout` — Modelled from the spec: `doWithTimeout` of
`util/do-with-timeout.js` is not under `src/`; per the spec it races the
operation against a deadline and throws `Timeout`, abandoning the operation;
when the flag is set the image pass throws and no mutation of the abandoned
pass is observed (the schedule in which the deadline fires first);
`prefsRefreshCircle` is `$prefs.get` of the refresh-circle key;
`now` is the clock in milliseconds. -/
structure Env where
  headReq : String → HeadResp
  getReq : String → GetResp
  writeOk : String → Bool
  prepare : String → List String → Option (List String)
  fetchResult : Option (List Item)
  imagePassTimeout : Bool
  prefsRefreshCircle : Option Nat
  now : Nat

/-- Accumulates the current URL segment; at each `/` the accumulator restarts,
so the final value is the substring after the last `/`. -/
def lastSegAux : List Char → List Char → List Char
  | [], acc => acc
  | c :: rest, acc => if c = '/' then lastSegAux rest [] else lastSegAux rest (acc ++ [c])

/-- The local filename derivation of `get-entry.js`:
`url.split(slash).slice(-1)[0]`, i.e. the last slash-separated segment. -/
def derivedName (url : String) : String := String.mk (lastSegAux url.data [])

/-- The derived local path: the JS template string `dst + "/" + name`. -/
def derivedPath (dst url : String) : String := dst ++ "/" ++ derivedName url

/-- The acceptance test of `selectImageBySize`:
`!error && len && len <= maxSize` — no probe error, a truthy (present and
nonzero) `expectedContentLength`, within the size budget. -/
def probeAccepts (env : Env) (maxSize : Nat) (url : String) : Bool :=
  let r := env.headReq url
  !r.error &&
    (match r.expectedContentLength with
     | some n => !(n == 0) && decide (n ≤ maxSize)
     | none => false)

/-- The scanning loop of `selectImageBySize`: walks the URLs in order while
the remaining budget is positive, probing each visited URL.  Returns
(selected URLs, probed URLs). -/
def selectGo (env : Env) (maxSize : Nat) : List String → Nat → List String × List String
  | [], _ => ([], [])
  | url :: rest, budget =>
    if budget = 0 then ([], [])
    else if probeAccepts env maxSize url then
      let r := selectGo env maxSize rest (budget - 1)
      (url :: r.1, url :: r.2)
    else
      let r := selectGo env maxSize rest budget
      (r.1, url :: r.2)

/-- Embedding of `selectImageBySize(imgUrls, maxSize, maxNumImg)` from `get-entry.js`,
instrumented to also report which URLs were probed. -/
def selectImageBySize (env : Env) (imgUrls : List String) (maxSize maxNumImg : Nat) :
    List String × List String :=
  selectGo env maxSize imgUrls maxNumImg

/-- One download of the fan-out inside `downloadImage`: `$http.get`, then the
status check, then `$file.write`; `false` models the promise rejecting. -/
def downloadOne (env : Env) (dst url : String) : Bool :=
  if (env.getReq url).error then false
  else if (env.getReq url).statusCode ≠ 200 then false
  else env.writeOk (derivedPath dst url)

/-- The `Promise.allSettled` download fan-out of `downloadImage`,
sequentialized in list order.  Arguments: remaining URLs, current `imgPaths`,
current filesystem.  A successful download appends the derived path to both. -/
def runDownloads (env : Env) (dst : String) :
    List String → List String → List String → List Bool × List String × List String
  | [], paths, fs => ([], paths, fs)
  | url :: rest, paths, fs =>
    let ok := downloadOne env dst url
    let paths1 := if ok then paths ++ [derivedPath dst url] else paths
    let fs1 := if ok then fs ++ [derivedPath dst url] else fs
    let r := runDownloads env dst rest paths1 fs1
    (ok :: r.1, r.2.1, r.2.2)

/-- The effectful `shownImgUrls.filter(...)` of `downloadImage`: drops a URL
whose derived path is already in `imgPaths`; a URL whose file already exists
is dropped after appending its path to `imgPaths` (the repair step).
Arguments: remaining URLs, current `imgPaths`.  Returns (kept URLs, new
`imgPaths`).  The filesystem `fs` is fixed — no writes happen during it. -/
def filterDownloaded (dst : String) (fs : List String) :
    List String → List String → List String × List String
  | [], paths => ([], paths)
  | url :: rest, paths =>
    let p := derivedPath dst url
    if p ∈ paths then filterDownloaded dst fs rest paths
    else if p ∈ fs then filterDownloaded dst fs rest (paths ++ [p])
    else
      let r := filterDownloaded dst fs rest paths
      (url :: r.1, r.2)

/-- The count budget computed inside `downloadImage`:
`!item.abstract ? 3 : item.abstract.length < MAX_ABSTRACT_LEN_ALLOWING_TWO_IMAGES ? 2 : 1`. -/
def maxNumImgOf (cfg : Config) (item : Item) : Nat :=
  if jsTruthyS item.abstract = false then 3
  else if (item.abstract.getD "").length < cfg.maxAbstractLenAllowingTwoImages then 2
  else 1

/-- Observable outcome of one `downloadImage` call: its boolean result, the
mutated item, the filesystem afterwards, and the traced URL lists — `probed`
(HEAD requests issued), `selected` (the selector output), `requested`
(URLs for which a `$http.get` download was issued). -/
structure DlOutcome where
  result : Bool
  item : Item
  fs : List String
  probed : List String
  selected : List String
  requested : List String
deriving DecidableEq

/-- Embedding of `downloadImage(dst, item)` from `get-entry.js`, with the filesystem passed
explicitly and the probe/download activity traced. -/
def downloadImage (env : Env) (cfg : Config) (dst : String) (item : Item)
    (fs : List String) : DlOutcome :=
  if jsTruthyB item.imgDownloaded || item.imgUrls.isEmpty then
    ⟨true, item, fs, [], [], []⟩
  else
    let sp := selectImageBySize env item.imgUrls cfg.maxImageSize (maxNumImgOf cfg item)
    if sp.1.isEmpty then
      ⟨true, { item with imgDownloaded := some true }, fs, sp.2, sp.1, []⟩
    else
      let item1 :=
        if item.imgPaths.isNone then
          { item with imgDownloaded := some false, imgPaths := some [] }
        else item
      let fk := filterDownloaded dst fs sp.1 (item1.imgPaths.getD [])
      let dl := runDownloads env dst fk.1 fk.2 fs
      if dl.1.all (fun b => b) then
        ⟨true, { item1 with imgPaths := some dl.2.1, imgDownloaded := some true },
          dl.2.2, sp.2, sp.1, fk.1⟩
      else
        ⟨false, { item1 with imgPaths := some dl.2.1 }, dl.2.2, sp.2, sp.1, fk.1⟩

/-- The `items.map(downloadImage.bind(null, dst))` fan-out of
`tryDownloadAllImageWithTimeout`, sequentialized in list order.
Returns (per-item results, mutated items, final filesystem). -/
def downloadAll (env : Env) (cfg : Config) (dst : String) :
    List Item → List String → List Bool × List Item × List String
  | [], fs => ([], [], fs)
  | it :: rest, fs =>
    let o := downloadImage env cfg dst it fs
    let r := downloadAll env cfg dst rest o.fs
    (o.result :: r.1, o.item :: r.2.1, r.2.2)

/-- Embedding of `tryDownloadAllImageWithTimeout(dst, items, maxTime, partialDownloaded)`:
when `partialDownloaded` is false, directory preparation runs first and its
failure aborts the pass; a timeout of the `doWithTimeout`-wrapped fan-out
yields `false` with the mutations of the pass abandoned. -/
def tryDownloadAllImageWithTimeout (env : Env) (cfg : Config) (dst : String)
    (items : List Item) (partialDownloaded : Bool) (fs : List String) :
    Bool × List Item × List String :=
  match (if partialDownloaded then some fs else env.prepare dst fs) with
  | none => (false, items, fs)
  | some fs0 =>
    if env.imagePassTimeout then (false, items, fs0)
    else
      let r := downloadAll env cfg dst items fs0
      (r.1.all (fun b => b), r.2.1, r.2.2)

/-- Modelled from the spec: `tryGetTiebaPostWithTimeout` wraps the remote
source client `getTiebaPost` (not under `src/`) in `doWithTimeout` and
returns `null` on failure or timeout; its outcome is the `fetchResult`
field of the environment. -/
def tryGetTiebaPostWithTimeout (env : Env) : Option (List Item) :=
  env.fetchResult

/-- Embedding of `isCacheValid(cache, nowDate)` from `get-entry.js`:
`cache && cache.items && cache.date && nowDate - cache.date <
($prefs.get of the refresh-circle key ?? DEFAULT_REFRESH_CIRCLE) * 60000`.
A present `items` array is truthy even when empty; a present `date` is a
`Date` object and always truthy. -/
def isCacheValid (cached : Option CacheRecord) (nowDate : Nat)
    (refreshPref : Option Nat) (defaultRefresh : Nat) : Bool :=
  match cached with
  | none => false
  | some c =>
    c.items.isSome && c.date.isSome &&
      decide ((nowDate : Int) - (c.date.getD 0 : Int) <
        ((refreshPref.getD defaultRefresh : Nat) : Int) * 60000)

/-- Observable outcome of one `getEntry` call: the returned `{info, date}`,
whether the remote client was consulted, and the records written to the
cache store (in order; the key is always the tieba name). -/
structure EntryResult where
  info : Option (List Item)
  date : Option Nat
  remoteCalled : Bool
  writes : List CacheRecord
deriving DecidableEq

/-- Embedding of `getEntry(tiebaName, forceLoad)` from `get-entry.js`, with the answer
of the cache store for the name and the filesystem passed explicitly.  The
`cached = none` case inside the valid-cache branch is unreachable
(`isCacheValid none = false`) and returns a filler. -/
def getEntry (env : Env) (cfg : Config) (tiebaName : String) (forceLoad : Bool)
    (cached : Option CacheRecord) (fs : List String) : EntryResult :=
  if tiebaName = "" then ⟨none, none, false, []⟩
  else
    let dst := cfg.imageDownloadDir ++ "/" ++ tiebaName
    if !forceLoad && isCacheValid cached env.now env.prefsRefreshCircle cfg.defaultRefreshCircle then
      match cached with
      | some c =>
        let items0 := c.items.getD []
        if !c.imgAllDownloaded then
          let r := tryDownloadAllImageWithTimeout env cfg dst items0 true fs
          ⟨some r.2.1, c.date, false, [⟨some r.2.1, c.date, r.1⟩]⟩
        else ⟨some items0, c.date, false, []⟩
      | none => ⟨none, none, false, []⟩
    else
      match tryGetTiebaPostWithTimeout env with
      | some fetched =>
        let r := tryDownloadAllImageWithTimeout env cfg dst fetched false fs
        ⟨some r.2.1, some env.now, true, [⟨some r.2.1, some env.now, r.1⟩]⟩
      | none =>
        match cached with
        | some c =>
          if c.items.isSome && c.date.isSome then ⟨c.items, c.date, true, []⟩
          else ⟨none, none, true, []⟩
        | none => ⟨none, none, true, []⟩

/-- The cache-freshness predicate exactly as the claim states it (a second
definition following the words of the claim, to be compared with `isCacheValid`):
a record exists, has NON-EMPTY items, has a capture timestamp, and the
elapsed time is below the configured interval. -/
def specCacheFresh (cached : Option CacheRecord) (nowDate : Nat)
    (refreshPref : Option Nat) (defaultRefresh : Nat) : Bool :=
  match cached with
  | none => false
  | some c =>
    match c.items, c.date with
    | some items, some d =>
      !items.isEmpty &&
        decide ((nowDate : Int) - (d : Int) <
          ((refreshPref.getD defaultRefresh : Nat) : Int) * 60000)
    | _, _ => false

/-! ### Concrete fixtures used by counterexamples and witnesses -/

/-- A small concrete configuration: 1 MB size budget, abstract threshold 50,
download root `img`, default refresh circle 30 minutes. -/
def cfg0 : Config := ⟨1000000, 50, "img", 30⟩

/-- A benign environment: every probe reports length 1, every download
succeeds, preparation succeeds, no fetch result, no timeout, no preference
override, clock at 10 ms. -/
def envBase : Env :=
  ⟨fun _ => ⟨false, some 1⟩, fun _ => ⟨false, 200⟩, fun _ => true,
   fun _ fs => some fs, none, false, none, 10⟩

/-- An item with no images at all. -/
def itemNoUrls : Item := ⟨none, [], none, none⟩

/-- An item with no abstract and five image URLs. -/
def itemFive : Item := ⟨none, ["a/1", "a/2", "a/3", "a/4", "a/5"], none, none⟩

/-- An item with three image URLs, used for the partial-failure witness. -/
def itemThree : Item := ⟨none, ["u/1", "u/2", "u/3"], none, none⟩

/-- An environment in which downloading `u/2` fails with a network error and
everything else succeeds. -/
def envFailU2 : Env :=
  { envBase with getReq := fun u => if u = "u/2" then ⟨true, 200⟩ else ⟨false, 200⟩ }

/-- An environment whose remote fetch returns a single item without images. -/
def envFetchNoUrls : Env := { envBase with fetchResult := some [itemNoUrls] }

/-- A fully downloaded item (flag set, one path recorded). -/
def itemDone : Item := ⟨none, ["u/1"], some true, some ["d/1"]⟩

/-- An environment whose remote fetch returns a fully downloaded item. -/
def envFetchDone : Env := { envBase with fetchResult := some [itemDone] }

/-- A cached record with an EMPTY items array and capture time 0: the record
the freshness claim and `isCacheValid` disagree about. -/
def recEmptyItems : CacheRecord := ⟨some [], some 0, true⟩

/-- A well-formed cached record holding one fully downloaded item. -/
def recDone : CacheRecord := ⟨some [itemDone], some 3, true⟩

/-! ### Helper lemmas about the selector scan -/

theorem selectGo_fst (env : Env) (maxSize : Nat) :
    ∀ (urls : List String) (b : Nat),
      (selectGo env maxSize urls b).1 = (urls.filter (probeAccepts env maxSize)).take b := by
  intro urls
  induction urls with
  | nil => intro b; simp [selectGo]
  | cons url rest ih =>
    intro b
    cases b with
    | zero => simp [selectGo]
    | succ k =>
      by_cases h : probeAccepts env maxSize url = true
      · simp [selectGo, h, List.filter_cons, ih]
      · simp only [Bool.not_eq_true] at h
        simp [selectGo, h, List.filter_cons, ih]

theorem selectGo_snd_prefixOfInput (env : Env) (maxSize : Nat) :
    ∀ (urls : List String) (b : Nat),
      ∃ t, urls = (selectGo env maxSize urls b).2 ++ t := by
  intro urls
  induction urls with
  | nil => intro b; exact ⟨[], by simp [selectGo]⟩
  | cons url rest ih =>
    intro b
    cases b with
    | zero => exact ⟨url :: rest, by simp [selectGo]⟩
    | succ k =>
      by_cases h : probeAccepts env maxSize url = true
      · obtain ⟨t, ht⟩ := ih k
        exact ⟨t, by simp [selectGo, h]; exact ht⟩
      · simp only [Bool.not_eq_true] at h
        obtain ⟨t, ht⟩ := ih (k + 1)
        exact ⟨t, by simp [selectGo, h]; exact ht⟩

theorem selectGo_budget (env : Env) (maxSize : Nat) :
    ∀ (urls : List String) (b k : Nat), k < (selectGo env maxSize urls b).2.length →
      (((selectGo env maxSize urls b).2.take k).filter (probeAccepts env maxSize)).length < b := by
  intro urls
  induction urls with
  | nil => intro b k hk; simp [selectGo] at hk
  | cons url rest ih =>
    intro b k hk
    cases b with
    | zero => simp [selectGo] at hk
    | succ m =>
      by_cases h : probeAccepts env maxSize url = true
      · simp only [selectGo, if_neg (Nat.succ_ne_zero m), if_pos h] at hk ⊢
        cases k with
        | zero => simp
        | succ j =>
          simp only [List.length_cons, Nat.succ_lt_succ_iff] at hk
          have := ih m j hk
          simpa [List.take_succ_cons, List.filter_cons, h, Nat.succ_lt_succ_iff] using this
      · simp only [Bool.not_eq_true] at h
        simp only [selectGo, if_neg (Nat.succ_ne_zero m), h, Bool.false_eq_true, if_false] at hk ⊢
        cases k with
        | zero => simp
        | succ j =>
          simp only [List.length_cons, Nat.succ_lt_succ_iff] at hk
          have := ih (m + 1) j hk
          simpa [List.take_succ_cons, List.filter_cons, h] using this

theorem selectGo_stop (env : Env) (maxSize : Nat) :
    ∀ (urls : List String) (b : Nat),
      (selectGo env maxSize urls b).2 = urls ∨
        (((selectGo env maxSize urls b).2.filter (probeAccepts env maxSize)).length = b) := by
  intro urls
  induction urls with
  | nil => intro b; exact Or.inl (by simp [selectGo])
  | cons url rest ih =>
    intro b
    cases b with
    | zero => exact Or.inr (by simp [selectGo])
    | succ m =>
      by_cases h : probeAccepts env maxSize url = true
      · rcases ih m with h1 | h1
        · exact Or.inl (by simp [selectGo, h, h1])
        · refine Or.inr ?_
          simp [selectGo, h, List.filter_cons, h1]
      · simp only [Bool.not_eq_true] at h
        rcases ih (m + 1) with h1 | h1
        · exact Or.inl (by simp [selectGo, h, h1])
        · refine Or.inr ?_
          simp [selectGo, h, List.filter_cons, h1]

/-! ### Helper lemmas about the download fan-out and the dedup filter -/

theorem runDownloads_spec (env : Env) (dst : String) :
    ∀ (urls paths fs : List String),
      runDownloads env dst urls paths fs =
        (urls.map (downloadOne env dst),
         paths ++ (urls.filter (downloadOne env dst)).map (derivedPath dst),
         fs ++ (urls.filter (downloadOne env dst)).map (derivedPath dst)) := by
  intro urls
  induction urls with
  | nil => intro paths fs; simp [runDownloads]
  | cons url rest ih =>
    intro paths fs
    by_cases h : downloadOne env dst url = true
    · simp [runDownloads, h, ih, List.filter_cons]
    · simp only [Bool.not_eq_true] at h
      simp [runDownloads, h, ih, List.filter_cons]

theorem filterDownloaded_snd_append (dst : String) (fs : List String) :
    ∀ (urls paths : List String),
      ∃ added, (filterDownloaded dst fs urls paths).2 = paths ++ added ∧
        ∀ p ∈ added, p ∈ fs := by
  intro urls
  induction urls with
  | nil => intro paths; exact ⟨[], by simp [filterDownloaded], by simp⟩
  | cons url rest ih =>
    intro paths
    by_cases h1 : derivedPath dst url ∈ paths
    · obtain ⟨added, ha, hf⟩ := ih paths
      exact ⟨added, by simp [filterDownloaded, h1, ha], hf⟩
    · by_cases h2 : derivedPath dst url ∈ fs
      · obtain ⟨added, ha, hf⟩ := ih (paths ++ [derivedPath dst url])
        refine ⟨derivedPath dst url :: added, ?_, ?_⟩
        · simp only [filterDownloaded, if_neg h1, if_pos h2, ha, List.append_assoc,
            List.singleton_append]
        · intro p hp
          rcases List.mem_cons.mp hp with hp | hp
          · exact hp ▸ h2
          · exact hf p hp
      · obtain ⟨added, ha, hf⟩ := ih paths
        exact ⟨added, by simp [filterDownloaded, h1, h2, ha], hf⟩

theorem filterDownloaded_fst (dst : String) (fs : List String) :
    ∀ (urls paths : List String),
      (filterDownloaded dst fs urls paths).1 =
        urls.filter (fun u =>
          !(decide (derivedPath dst u ∈ paths) || decide (derivedPath dst u ∈ fs))) := by
  intro urls
  induction urls with
  | nil => intro paths; simp [filterDownloaded]
  | cons url rest ih =>
    intro paths
    by_cases h1 : derivedPath dst url ∈ paths
    · simp [filterDownloaded, h1, List.filter_cons, ih]
    · by_cases h2 : derivedPath dst url ∈ fs
      · have hcong : rest.filter (fun u =>
            !(decide (derivedPath dst u ∈ paths ++ [derivedPath dst url]) ||
              decide (derivedPath dst u ∈ fs))) =
            rest.filter (fun u =>
              !(decide (derivedPath dst u ∈ paths) || decide (derivedPath dst u ∈ fs))) := by
          refine List.filter_congr ?_
          intro u _
          by_cases he : derivedPath dst u = derivedPath dst url
          · simp [he, h2]
          · simp [List.mem_append, he]
        calc (filterDownloaded dst fs (url :: rest) paths).1
            = (filterDownloaded dst fs rest (paths ++ [derivedPath dst url])).1 := by
              simp only [filterDownloaded, if_neg h1, if_pos h2]
          _ = rest.filter (fun u =>
                !(decide (derivedPath dst u ∈ paths ++ [derivedPath dst url]) ||
                  decide (derivedPath dst u ∈ fs))) := ih _
          _ = rest.filter (fun u =>
                !(decide (derivedPath dst u ∈ paths) || decide (derivedPath dst u ∈ fs))) := hcong
          _ = (url :: rest).filter (fun u =>
                !(decide (derivedPath dst u ∈ paths) || decide (derivedPath dst u ∈ fs))) := by
              simp [List.filter_cons, h1, h2]
      · simp [filterDownloaded, h1, h2, List.filter_cons, ih]

theorem filterDownloaded_snd_id (dst : String) (fs : List String) :
    ∀ (urls paths : List String),
      (∀ u ∈ urls, derivedPath dst u ∈ fs → derivedPath dst u ∈ paths) →
      (filterDownloaded dst fs urls paths).2 = paths := by
  intro urls
  induction urls with
  | nil => intro paths _; simp [filterDownloaded]
  | cons url rest ih =>
    intro paths h
    by_cases h1 : derivedPath dst url ∈ paths
    · simp only [filterDownloaded, if_pos h1]
      exact ih paths (fun u hu => h u (List.mem_cons_of_mem _ hu))
    · by_cases h2 : derivedPath dst url ∈ fs
      · exact absurd (h url (List.mem_cons_self _ _) h2) h1
      · simp only [filterDownloaded, if_neg h1, if_neg h2]
        exact ih paths (fun u hu => h u (List.mem_cons_of_mem _ hu))

theorem filterDownloaded_mem_snd (dst : String) (fs : List String) :
    ∀ (urls paths : List String) (u : String), u ∈ urls → derivedPath dst u ∈ fs →
      derivedPath dst u ∈ (filterDownloaded dst fs urls paths).2 := by
  intro urls
  induction urls with
  | nil => intro paths u hu; exact absurd hu (List.not_mem_nil u)
  | cons url rest ih =>
    intro paths u hu hfs
    rcases List.mem_cons.mp hu with hu | hu
    · subst hu
      by_cases h1 : derivedPath dst u ∈ paths
      · simp only [filterDownloaded, if_pos h1]
        obtain ⟨added, ha, _⟩ := filterDownloaded_snd_append dst fs rest paths
        rw [ha]
        exact List.mem_append_left _ h1
      · simp only [filterDownloaded, if_neg h1, if_pos hfs]
        obtain ⟨added, ha, _⟩ := filterDownloaded_snd_append dst fs rest
          (paths ++ [derivedPath dst u])
        rw [ha]
        exact List.mem_append_left _ (by simp)
    · by_cases h1 : derivedPath dst url ∈ paths
      · simp only [filterDownloaded, if_pos h1]
        exact ih paths u hu hfs
      · by_cases h2 : derivedPath dst url ∈ fs
        · simp only [filterDownloaded, if_neg h1, if_pos h2]
          exact ih _ u hu hfs
        · simp only [filterDownloaded, if_neg h1, if_neg h2]
          exact ih paths u hu hfs

/-! ### Helper lemmas about `downloadImage` -/

theorem jsTruthyB_eq_true (o : Option Bool) : jsTruthyB o = true ↔ o = some true := by
  cases o with
  | none => simp [jsTruthyB]
  | some b => cases b <;> simp [jsTruthyB]

theorem maxNumImgOf_congr (cfg : Config) {a b : Item} (h : a.abstract = b.abstract) :
    maxNumImgOf cfg a = maxNumImgOf cfg b := by
  simp [maxNumImgOf, h]

theorem downloadImage_shortcut (env : Env) (cfg : Config) (dst : String) (item : Item)
    (fs : List String) (h : (jsTruthyB item.imgDownloaded || item.imgUrls.isEmpty) = true) :
    downloadImage env cfg dst item fs = ⟨true, item, fs, [], [], []⟩ := by
  simp [downloadImage, h]

theorem downloadImage_selEmpty (env : Env) (cfg : Config) (dst : String) (item : Item)
    (fs : List String) (h1 : (jsTruthyB item.imgDownloaded || item.imgUrls.isEmpty) = false)
    (h2 : (selectImageBySize env item.imgUrls cfg.maxImageSize (maxNumImgOf cfg item)).1.isEmpty
      = true) :
    downloadImage env cfg dst item fs =
      ⟨true, { item with imgDownloaded := some true }, fs,
        (selectImageBySize env item.imgUrls cfg.maxImageSize (maxNumImgOf cfg item)).2,
        (selectImageBySize env item.imgUrls cfg.maxImageSize (maxNumImgOf cfg item)).1, []⟩ := by
  simp [downloadImage, h1, h2]

theorem downloadImage_main (env : Env) (cfg : Config) (dst : String) (item : Item)
    (fs : List String) (h1 : (jsTruthyB item.imgDownloaded || item.imgUrls.isEmpty) = false)
    (h2 : (selectImageBySize env item.imgUrls cfg.maxImageSize (maxNumImgOf cfg item)).1.isEmpty
      = false) :
    downloadImage env cfg dst item fs =
      (let sp := selectImageBySize env item.imgUrls cfg.maxImageSize (maxNumImgOf cfg item)
       let item1 :=
         if item.imgPaths.isNone then
           { item with imgDownloaded := some false, imgPaths := some [] }
         else item
       let fk := filterDownloaded dst fs sp.1 (item1.imgPaths.getD [])
       let dl := runDownloads env dst fk.1 fk.2 fs
       if dl.1.all (fun b => b) then
         ⟨true, { item1 with imgPaths := some dl.2.1, imgDownloaded := some true },
           dl.2.2, sp.2, sp.1, fk.1⟩
       else
         ⟨false, { item1 with imgPaths := some dl.2.1 }, dl.2.2, sp.2, sp.1, fk.1⟩) := by
  simp only [downloadImage, h1, h2, Bool.false_eq_true, if_false]

/-- A `downloadImage` call reports success exactly when the item it leaves
behind has `imgDownloaded` truthy or had no image URLs at all. -/
theorem downloadImage_result_iff (env : Env) (cfg : Config) (dst : String) (item : Item)
    (fs : List String) :
    (downloadImage env cfg dst item fs).result =
      (jsTruthyB (downloadImage env cfg dst item fs).item.imgDownloaded ||
        (downloadImage env cfg dst item fs).item.imgUrls.isEmpty) := by
  by_cases h1 : (jsTruthyB item.imgDownloaded || item.imgUrls.isEmpty) = true
  · rw [downloadImage_shortcut env cfg dst item fs h1]
    exact h1.symm
  · simp only [Bool.not_eq_true] at h1
    by_cases h2 : (selectImageBySize env item.imgUrls cfg.maxImageSize
        (maxNumImgOf cfg item)).1.isEmpty = true
    · rw [downloadImage_selEmpty env cfg dst item fs h1 h2]
      simp [jsTruthyB]
    · simp only [Bool.not_eq_true] at h2
      rw [downloadImage_main env cfg dst item fs h1 h2]
      simp only []
      by_cases h3 : ((runDownloads env dst
          (filterDownloaded dst fs
            (selectImageBySize env item.imgUrls cfg.maxImageSize (maxNumImgOf cfg item)).1
            ((if item.imgPaths.isNone then
                { item with imgDownloaded := some false, imgPaths := some [] }
              else item).imgPaths.getD [])).1
          (filterDownloaded dst fs
            (selectImageBySize env item.imgUrls cfg.maxImageSize (maxNumImgOf cfg item)).1
            ((if item.imgPaths.isNone then
                { item with imgDownloaded := some false, imgPaths := some [] }
              else item).imgPaths.getD [])).2 fs).1.all (fun b => b)) = true
    -- success branch: the flag is set to `some true`
      · rw [if_pos h3]
        simp [jsTruthyB]
      · rw [if_neg h3]
        have hemp : item.imgUrls.isEmpty = false := by
          rcases Bool.or_eq_false_iff.mp h1 with ⟨_, h⟩
          exact h
        have hflag : jsTruthyB item.imgDownloaded = false := by
          rcases Bool.or_eq_false_iff.mp h1 with ⟨h, _⟩
          exact h
        have hne : item.imgUrls ≠ [] := by
          simpa [List.isEmpty_iff] using hemp
        have hgd : item.imgDownloaded.getD false = false := hflag
        by_cases hp : item.imgPaths = none
        · simp [hp, hne, jsTruthyB]
        · simp [hp, hgd, hne, jsTruthyB]

theorem all_map_id {α : Type} (l : List α) (f : α → Bool) :
    (l.map f).all (fun b => b) = l.all f := by
  induction l with
  | nil => rfl
  | cons a t ih => simp [List.all_cons, ih]

theorem downloadAll_all (env : Env) (cfg : Config) (dst : String) :
    ∀ (items : List Item) (fs : List String),
      ((downloadAll env cfg dst items fs).1.all (fun b => b)) =
        ((downloadAll env cfg dst items fs).2.1.all
          (fun it => jsTruthyB it.imgDownloaded || it.imgUrls.isEmpty)) := by
  intro items
  induction items with
  | nil => intro fs; simp [downloadAll]
  | cons it rest ih =>
    intro fs
    simp only [downloadAll, List.all_cons]
    rw [downloadImage_result_iff, ih]

/-- Core analysis of a failing `downloadImage` call and of the call right after
it: the first call ends in the failure branch with `imgPaths = P1 ++ W`
(`P1` after the dedup filter, `W` the successfully written paths) and
filesystem `fs ++ W`; the second call keeps `imgPaths` unchanged and
re-requests exactly the kept URLs whose derived path is still missing. -/
theorem second_call_core (env : Env) (cfg : Config) (dst : String) (item : Item)
    (fs : List String) (sel prb P0 : List String) (item1 : Item) (K P1 W : List String)
    (h1 : (jsTruthyB item.imgDownloaded || item.imgUrls.isEmpty) = false)
    (hsel : selectImageBySize env item.imgUrls cfg.maxImageSize (maxNumImgOf cfg item)
      = (sel, prb))
    (hne : sel.isEmpty = false)
    (hitem1 : item1 = (if item.imgPaths.isNone then
      { item with imgDownloaded := some false, imgPaths := some [] } else item))
    (hP0 : P0 = item1.imgPaths.getD [])
    (hfk : filterDownloaded dst fs sel P0 = (K, P1))
    (hW : W = (K.filter (downloadOne env dst)).map (derivedPath dst))
    (hfail : K.all (downloadOne env dst) = false) :
    downloadImage env cfg dst item fs
      = ⟨false, { item1 with imgPaths := some (P1 ++ W) }, fs ++ W, prb, sel, K⟩
    ∧ (downloadImage env cfg dst { item1 with imgPaths := some (P1 ++ W) }
        (fs ++ W)).item.imgPaths = some (P1 ++ W)
    ∧ (downloadImage env cfg dst { item1 with imgPaths := some (P1 ++ W) }
        (fs ++ W)).requested
      = K.filter (fun u => !(decide (derivedPath dst u ∈ fs ++ W)))
    ∧ ∀ u ∈ K.filter (fun u => !(decide (derivedPath dst u ∈ fs ++ W))),
        derivedPath dst u ∉ P1 ++ W ∧ derivedPath dst u ∉ fs ++ W := by
  have h2 : (selectImageBySize env item.imgUrls cfg.maxImageSize
      (maxNumImgOf cfg item)).1.isEmpty = false := by rw [hsel]; exact hne
  have hemp : item.imgUrls.isEmpty = false := (Bool.or_eq_false_iff.mp h1).2
  have hflag : jsTruthyB item.imgDownloaded = false := (Bool.or_eq_false_iff.mp h1).1
  -- structural facts about item1
  have hi1abs : item1.abstract = item.abstract := by
    rw [hitem1]; by_cases hp : item.imgPaths.isNone <;> simp [hp]
  have hi1urls : item1.imgUrls = item.imgUrls := by
    rw [hitem1]; by_cases hp : item.imgPaths.isNone <;> simp [hp]
  have hi1flag : jsTruthyB item1.imgDownloaded = false := by
    rw [hitem1]; by_cases hp : item.imgPaths.isNone <;> simp [hp, jsTruthyB, hflag]
    exact hflag
  -- decomposition of P1 over P0, and the written paths W over K
  obtain ⟨A, hP10, hA⟩ := filterDownloaded_snd_append dst fs sel P0
  have hP1 : P1 = P0 ++ A := by rw [hfk] at hP10; exact hP10
  have hKsel : K = sel.filter (fun u =>
      !(decide (derivedPath dst u ∈ P0) || decide (derivedPath dst u ∈ fs))) := by
    have h := filterDownloaded_fst dst fs sel P0
    rw [hfk] at h
    exact h
  -- the first call lands in the failure branch
  have hfirst : downloadImage env cfg dst item fs
      = ⟨false, { item1 with imgPaths := some (P1 ++ W) }, fs ++ W, prb, sel, K⟩ := by
    rw [downloadImage_main env cfg dst item fs h1 h2]
    simp only [hsel, ← hitem1, ← hP0, hfk, runDownloads_spec, hW, all_map_id, hfail,
      Bool.false_eq_true, if_false]
  refine ⟨hfirst, ?_⟩
  -- facts needed for the second call
  have hWfs : ∀ p ∈ W, p ∈ fs ++ W := fun p hp => List.mem_append_right fs hp
  have hsubid : ∀ u ∈ sel, derivedPath dst u ∈ fs ++ W → derivedPath dst u ∈ P1 ++ W := by
    intro u hu hm
    rcases List.mem_append.mp hm with hm | hm
    · have := filterDownloaded_mem_snd dst fs sel P0 u hu hm
      rw [hfk] at this
      exact List.mem_append_left W this
    · exact List.mem_append_right P1 hm
  -- the item entering the second call
  set i2 : Item := { item1 with imgPaths := some (P1 ++ W) } with hi2
  have hi2flag : jsTruthyB i2.imgDownloaded = false := hi1flag
  have hi2urls : i2.imgUrls = item.imgUrls := hi1urls
  have hc2 : (jsTruthyB i2.imgDownloaded || i2.imgUrls.isEmpty) = false := by
    rw [hi2flag, hi2urls, hemp]; rfl
  have hsel2 : selectImageBySize env i2.imgUrls cfg.maxImageSize (maxNumImgOf cfg i2)
      = (sel, prb) := by
    rw [hi2urls, maxNumImgOf_congr cfg (show i2.abstract = item.abstract from hi1abs), hsel]
  have hsel2e : (selectImageBySize env i2.imgUrls cfg.maxImageSize
      (maxNumImgOf cfg i2)).1.isEmpty = false := by rw [hsel2]; exact hne
  -- the dedup filter of the second call: nothing repaired, kept = still missing
  have hfk2snd : (filterDownloaded dst (fs ++ W) sel (P1 ++ W)).2 = P1 ++ W :=
    filterDownloaded_snd_id dst (fs ++ W) sel (P1 ++ W) hsubid
  have hfk2fst : (filterDownloaded dst (fs ++ W) sel (P1 ++ W)).1
      = K.filter (fun u => !(decide (derivedPath dst u ∈ fs ++ W))) := by
    rw [filterDownloaded_fst dst (fs ++ W) sel (P1 ++ W), hKsel, List.filter_filter]
    refine List.filter_congr ?_
    intro u _
    by_cases hm : derivedPath dst u ∈ fs ++ W
    · simp [hm]
    · have hnfs : derivedPath dst u ∉ fs := fun h => hm (List.mem_append_left W h)
      have hnW : derivedPath dst u ∉ W := fun h => hm (List.mem_append_right fs h)
      have hnA : derivedPath dst u ∉ A := fun h => hnfs (hA _ h)
      have hP1W : (derivedPath dst u ∈ P1 ++ W) ↔ derivedPath dst u ∈ P0 := by
        rw [hP1]
        simp only [List.mem_append]
        constructor
        · rintro ((h | h) | h)
          · exact h
          · exact absurd h hnA
          · exact absurd h hnW
        · intro h; exact Or.inl (Or.inl h)
      by_cases hp0 : derivedPath dst u ∈ P0
      · simp [hP1W, hp0, hm]
      · simp [hP1W, hp0, hm, hnfs]
  -- every URL the second call keeps fails again under the same environment
  have hallfail : ∀ u ∈ K.filter (fun u => !(decide (derivedPath dst u ∈ fs ++ W))),
      downloadOne env dst u = false := by
    intro u hu
    have hK : u ∈ K := List.mem_of_mem_filter hu
    have hmiss : derivedPath dst u ∉ fs ++ W := by
      have := List.of_mem_filter hu
      simpa using this
    by_contra hok
    simp only [Bool.not_eq_false] at hok
    exact hmiss (List.mem_append_right fs
      (hW ▸ List.mem_map_of_mem (derivedPath dst) (List.mem_filter.mpr ⟨hK, hok⟩)))
  have hW2nil : ((filterDownloaded dst (fs ++ W) sel (P1 ++ W)).1.filter
      (downloadOne env dst)) = [] := by
    rw [hfk2fst]
    exact List.filter_eq_nil_iff.mpr (fun a ha => by simp [hallfail a ha])
  -- assemble the second call
  have hsecond := downloadImage_main env cfg dst i2 (fs ++ W) hc2 hsel2e
  rw [hsel2] at hsecond
  simp only [hi2] at hsecond
  simp only [Option.isNone_some, Bool.false_eq_true, if_false, Option.getD_some] at hsecond
  constructor
  · -- imgPaths preserved
    rw [hsecond]
    by_cases hall2 : ((runDownloads env dst (filterDownloaded dst (fs ++ W) sel (P1 ++ W)).1
        (filterDownloaded dst (fs ++ W) sel (P1 ++ W)).2 (fs ++ W)).1.all (fun b => b)) = true
    · rw [if_pos hall2]
      simp only [runDownloads_spec, hW2nil, List.map_nil, List.append_nil, hfk2snd]
    · rw [if_neg hall2]
      simp only [runDownloads_spec, hW2nil, List.map_nil, List.append_nil, hfk2snd]
  constructor
  · -- requested = still-missing kept URLs
    rw [hsecond]
    by_cases hall2 : ((runDownloads env dst (filterDownloaded dst (fs ++ W) sel (P1 ++ W)).1
        (filterDownloaded dst (fs ++ W) sel (P1 ++ W)).2 (fs ++ W)).1.all (fun b => b)) = true
    · rw [if_pos hall2]
      simp only [hfk2fst]
    · rw [if_neg hall2]
      simp only [hfk2fst]
  · -- the still-missing URLs are in neither imgPaths nor the filesystem
    intro u hu
    have hmiss : derivedPath dst u ∉ fs ++ W := by
      have := List.of_mem_filter hu
      simpa using this
    refine ⟨?_, hmiss⟩
    have hK : u ∈ K := List.mem_of_mem_filter hu
    have hup0 : derivedPath dst u ∉ P0 ∧ derivedPath dst u ∉ fs := by
      have := List.of_mem_filter (hKsel ▸ hK)
      constructor
      · intro h; simp [h] at this
      · intro h; simp [h] at this
    intro hP1W
    rcases List.mem_append.mp hP1W with h | h
    · rw [hP1] at h
      rcases List.mem_append.mp h with h | h
      · exact hup0.1 h
      · exact hup0.2 (hA _ h)
    · exact hmiss (List.mem_append_right fs h)

/-- Closed form of a `downloadImage` call that reaches the download phase,
stated over named abbreviations of its intermediate values. -/
theorem downloadImage_main_spec (env : Env) (cfg : Config) (dst : String) (item : Item)
    (fs : List String) (sel prb P0 : List String) (item1 : Item) (K P1 W : List String)
    (h1 : (jsTruthyB item.imgDownloaded || item.imgUrls.isEmpty) = false)
    (hsel : selectImageBySize env item.imgUrls cfg.maxImageSize (maxNumImgOf cfg item)
      = (sel, prb))
    (hne : sel.isEmpty = false)
    (hitem1 : item1 = (if item.imgPaths.isNone then
      { item with imgDownloaded := some false, imgPaths := some [] } else item))
    (hP0 : P0 = item1.imgPaths.getD [])
    (hfk : filterDownloaded dst fs sel P0 = (K, P1))
    (hW : W = (K.filter (downloadOne env dst)).map (derivedPath dst)) :
    downloadImage env cfg dst item fs =
      (if K.all (downloadOne env dst) then
        ⟨true, { item1 with imgPaths := some (P1 ++ W), imgDownloaded := some true },
          fs ++ W, prb, sel, K⟩
      else
        ⟨false, { item1 with imgPaths := some (P1 ++ W) }, fs ++ W, prb, sel, K⟩) := by
  have h2 : (selectImageBySize env item.imgUrls cfg.maxImageSize
      (maxNumImgOf cfg item)).1.isEmpty = false := by rw [hsel]; exact hne
  rw [downloadImage_main env cfg dst item fs h1 h2]
  simp only [hsel, ← hitem1, ← hP0, hfk, runDownloads_spec, all_map_id, ← hW]

/-- A call on an item whose `imgDownloaded` flag is literally `some true`
short-circuits. -/
theorem downloadImage_of_flag (env : Env) (cfg : Config) (dst : String) (it : Item)
    (fs : List String) (h : it.imgDownloaded = some true) :
    downloadImage env cfg dst it fs = ⟨true, it, fs, [], [], []⟩ :=
  downloadImage_shortcut env cfg dst it fs (by simp [jsTruthyB, h])

/-- Under the non-shortcut condition, the probe and selection traces of
`downloadImage` are those of the selector call it makes. -/
theorem downloadImage_traces (env : Env) (cfg : Config) (dst : String) (item : Item)
    (fs : List String)
    (h1 : (jsTruthyB item.imgDownloaded || item.imgUrls.isEmpty) = false) :
    (downloadImage env cfg dst item fs).selected
      = (selectImageBySize env item.imgUrls cfg.maxImageSize (maxNumImgOf cfg item)).1
    ∧ (downloadImage env cfg dst item fs).probed
      = (selectImageBySize env item.imgUrls cfg.maxImageSize (maxNumImgOf cfg item)).2 := by
  by_cases h2 : (selectImageBySize env item.imgUrls cfg.maxImageSize
      (maxNumImgOf cfg item)).1.isEmpty = true
  · rw [downloadImage_selEmpty env cfg dst item fs h1 h2]
    exact ⟨rfl, rfl⟩
  · simp only [Bool.not_eq_true] at h2
    rw [downloadImage_main env cfg dst item fs h1 h2]
    dsimp only
    split <;> split <;> exact ⟨rfl, rfl⟩

/-- When the image pass neither times out nor fails preparation, its boolean
result is `true` exactly when every item it returns ends with a truthy
`imgDownloaded` flag or had no image URLs. -/
theorem tryDownloadAll_flag_iff (env : Env) (cfg : Config) (dst : String)
    (hT : env.imagePassTimeout = false) (items : List Item) (fsx : List String) (pd : Bool)
    (hp : pd = true ∨ (env.prepare dst fsx).isSome = true) :
    ((tryDownloadAllImageWithTimeout env cfg dst items pd fsx).1 = true ↔
      ∀ it ∈ (tryDownloadAllImageWithTimeout env cfg dst items pd fsx).2.1,
        it.imgDownloaded = some true ∨ it.imgUrls = []) := by
  have hit : ∀ (it : Item),
      ((jsTruthyB it.imgDownloaded || it.imgUrls.isEmpty) = true) ↔
        (it.imgDownloaded = some true ∨ it.imgUrls = []) := by
    intro it
    rw [Bool.or_eq_true, jsTruthyB_eq_true, List.isEmpty_iff]
  cases pd with
  | true =>
    simp only [tryDownloadAllImageWithTimeout, if_true, hT, Bool.false_eq_true, if_false]
    rw [downloadAll_all, List.all_eq_true]
    exact ⟨fun h it hmem => (hit it).1 (h it hmem), fun h it hmem => (hit it).2 (h it hmem)⟩
  | false =>
    rcases hp with hpd | hprep
    · cases hpd
    · obtain ⟨fs0, h0⟩ := Option.isSome_iff_exists.mp hprep
      simp only [tryDownloadAllImageWithTimeout, Bool.false_eq_true, if_false, h0, hT]
      rw [downloadAll_all, List.all_eq_true]
      exact ⟨fun h it hmem => (hit it).1 (h it hmem), fun h it hmem => (hit it).2 (h it hmem)⟩

/-! ### Claim theorems -/

/-- Claim C7: for every locator list, size budget, and count budget,
`selectImageBySize` returns, in the original relative order, exactly the
earliest locators whose size probe succeeds (no error and a usable — present
and nonzero — length within the size budget), up to the count budget; probe
errors or missing lengths are skipped without failing the selection; the
probed locators form a prefix of the input, every probe is issued while
fewer than the budget have been accepted, and scanning stops early only
because the count budget was reached; the result may be shorter than the
count budget (it is a `take`). -/
theorem selectImageBySize_spec (env : Env) (imgUrls : List String) (maxSize maxNumImg : Nat) :
    (selectImageBySize env imgUrls maxSize maxNumImg).1
        = (imgUrls.filter (probeAccepts env maxSize)).take maxNumImg
    ∧ (∃ t, imgUrls = (selectImageBySize env imgUrls maxSize maxNumImg).2 ++ t)
    ∧ (∀ k, k < (selectImageBySize env imgUrls maxSize maxNumImg).2.length →
        (((selectImageBySize env imgUrls maxSize maxNumImg).2.take k).filter
          (probeAccepts env maxSize)).length < maxNumImg)
    ∧ ((selectImageBySize env imgUrls maxSize maxNumImg).2 = imgUrls ∨
        ((selectImageBySize env imgUrls maxSize maxNumImg).2.filter
          (probeAccepts env maxSize)).length = maxNumImg) :=
  ⟨selectGo_fst env maxSize imgUrls maxNumImg,
   selectGo_snd_prefixOfInput env maxSize imgUrls maxNumImg,
   fun k hk => selectGo_budget env maxSize imgUrls maxNumImg k hk,
   selectGo_stop env maxSize imgUrls maxNumImg⟩

/-- Claim C5, counterexample: on an item with an empty image-locator list,
`downloadImage` returns success but does NOT set `imgDownloaded = true`
as the claim asserts — the item is returned untouched. -/
theorem downloadImage_emptyUrls_no_flag :
    (downloadImage envBase cfg0 "d" itemNoUrls []).result = true
    ∧ (downloadImage envBase cfg0 "d" itemNoUrls []).item.imgDownloaded = none := by
  decide

/-- Claim C5, amended: `downloadImage` short-circuits with success when the
flag `imgDownloaded` of the item is already truthy or its image-locator list is
empty; in BOTH cases it performs no probes, no downloads, and no mutation of
the item or the filesystem (the empty-locator case does not set the flag). -/
theorem downloadImage_shortcircuit_amended (env : Env) (cfg : Config) (dst : String)
    (item : Item) (fs : List String)
    (h : jsTruthyB item.imgDownloaded = true ∨ item.imgUrls = []) :
    downloadImage env cfg dst item fs = ⟨true, item, fs, [], [], []⟩ := by
  apply downloadImage_shortcut
  rcases h with h | h
  · rw [h]; rfl
  · rw [h]; simp

/-- Claim C5, witness: the amended short-circuit theorem applied to the
concrete no-image item. -/
theorem downloadImage_shortcircuit_amended_witness :
    (jsTruthyB itemNoUrls.imgDownloaded = true ∨ itemNoUrls.imgUrls = [])
    ∧ downloadImage envBase cfg0 "d" itemNoUrls [] = ⟨true, itemNoUrls, [], [], [], []⟩ :=
  ⟨Or.inr rfl, downloadImage_shortcircuit_amended envBase cfg0 "d" itemNoUrls [] (Or.inr rfl)⟩

/-- Claim C8: for every item reaching the selection step (flag not truthy,
nonempty locator list), the count budget `downloadImage` passes to the
selector is 3 when the item has no (truthy) abstract, 2 when its abstract is
shorter than the configured threshold, and 1 otherwise — visible through the
selection and probe traces. -/
theorem downloadImage_count_budget (env : Env) (cfg : Config) (dst : String)
    (item : Item) (fs : List String)
    (h1 : jsTruthyB item.imgDownloaded = false) (h2 : item.imgUrls ≠ []) :
    (downloadImage env cfg dst item fs).selected
      = (selectImageBySize env item.imgUrls cfg.maxImageSize
          (if jsTruthyS item.abstract = false then 3
           else if (item.abstract.getD "").length < cfg.maxAbstractLenAllowingTwoImages then 2
           else 1)).1
    ∧ (downloadImage env cfg dst item fs).probed
      = (selectImageBySize env item.imgUrls cfg.maxImageSize
          (if jsTruthyS item.abstract = false then 3
           else if (item.abstract.getD "").length < cfg.maxAbstractLenAllowingTwoImages then 2
           else 1)).2 := by
  have hcond : (jsTruthyB item.imgDownloaded || item.imgUrls.isEmpty) = false := by
    rw [h1]
    simpa [List.isEmpty_iff] using h2
  exact downloadImage_traces env cfg dst item fs hcond

/-- Claim C8, witness: an item with no abstract and five locators, all within
the size budget, yields exactly the first three locators in original order. -/
theorem downloadImage_count_budget_witness :
    jsTruthyB itemFive.imgDownloaded = false ∧ itemFive.imgUrls ≠ []
    ∧ (downloadImage envBase cfg0 "d" itemFive []).selected = ["a/1", "a/2", "a/3"] :=
  ⟨by decide, by decide,
    ((downloadImage_count_budget envBase cfg0 "d" itemFive [] (by decide) (by decide)).1).trans
      (by decide)⟩

/-- Claim C10: every `downloadImage` call grows the `imgPaths` of the item purely
by appending — the previous sequence is a prefix of the new one, in order. -/
theorem downloadImage_imgPaths_monotone (env : Env) (cfg : Config) (dst : String)
    (item : Item) (fs : List String) :
    ∃ t, (downloadImage env cfg dst item fs).item.imgPaths.getD []
      = item.imgPaths.getD [] ++ t := by
  by_cases h1 : (jsTruthyB item.imgDownloaded || item.imgUrls.isEmpty) = true
  · exact ⟨[], by rw [downloadImage_shortcut env cfg dst item fs h1]; simp⟩
  · simp only [Bool.not_eq_true] at h1
    by_cases h2 : (selectImageBySize env item.imgUrls cfg.maxImageSize
        (maxNumImgOf cfg item)).1.isEmpty = true
    · exact ⟨[], by rw [downloadImage_selEmpty env cfg dst item fs h1 h2]; simp⟩
    · simp only [Bool.not_eq_true] at h2
      have hspec := downloadImage_main_spec env cfg dst item fs
        (selectImageBySize env item.imgUrls cfg.maxImageSize (maxNumImgOf cfg item)).1
        (selectImageBySize env item.imgUrls cfg.maxImageSize (maxNumImgOf cfg item)).2
        _ _ _ _ _ h1 rfl h2 rfl rfl rfl rfl
      set item1 := (if item.imgPaths.isNone then
        { item with imgDownloaded := some false, imgPaths := some [] } else item) with hitem1
      have hbase : item1.imgPaths.getD [] = item.imgPaths.getD [] := by
        by_cases hp : item.imgPaths = none
        · simp [hitem1, hp]
        · simp [hitem1, hp]
      obtain ⟨A, hA, _⟩ := filterDownloaded_snd_append dst fs
        (selectImageBySize env item.imgUrls cfg.maxImageSize (maxNumImgOf cfg item)).1
        (item1.imgPaths.getD [])
      set Wd := List.map (derivedPath dst) (List.filter (downloadOne env dst)
        (filterDownloaded dst fs
          (selectImageBySize env item.imgUrls cfg.maxImageSize (maxNumImgOf cfg item)).1
          (item1.imgPaths.getD [])).1) with hWd
      rw [hspec]
      split
      · refine ⟨A ++ Wd, ?_⟩
        simp only [Option.getD_some]
        rw [hA, hbase, List.append_assoc]
      · refine ⟨A ++ Wd, ?_⟩
        simp only [Option.getD_some]
        rw [hA, hbase, List.append_assoc]

/-- Claim C9: calling `downloadImage` twice in a row on the same item under
an unchanged environment (same probe and download outcomes) is idempotent —
the second call leaves `imgPaths` exactly as the first call produced it, and
it issues a download request only for locators whose derived local path is
neither recorded in `imgPaths` nor present on the filesystem after the first
call. -/
theorem downloadImage_idempotent (env : Env) (cfg : Config) (dst : String) (item : Item)
    (fs : List String) :
    (downloadImage env cfg dst (downloadImage env cfg dst item fs).item
        (downloadImage env cfg dst item fs).fs).item.imgPaths
      = (downloadImage env cfg dst item fs).item.imgPaths
    ∧ ∀ u ∈ (downloadImage env cfg dst (downloadImage env cfg dst item fs).item
        (downloadImage env cfg dst item fs).fs).requested,
        derivedPath dst u ∉ (downloadImage env cfg dst item fs).item.imgPaths.getD []
        ∧ derivedPath dst u ∉ (downloadImage env cfg dst item fs).fs := by
  by_cases h1 : (jsTruthyB item.imgDownloaded || item.imgUrls.isEmpty) = true
  · simp [downloadImage_shortcut env cfg dst item fs h1]
  · simp only [Bool.not_eq_true] at h1
    by_cases h2 : (selectImageBySize env item.imgUrls cfg.maxImageSize
        (maxNumImgOf cfg item)).1.isEmpty = true
    · have hsc : (jsTruthyB ({ item with imgDownloaded := some true } : Item).imgDownloaded
          || ({ item with imgDownloaded := some true } : Item).imgUrls.isEmpty) = true := by
        simp [jsTruthyB]
      simp [downloadImage_selEmpty env cfg dst item fs h1 h2,
        downloadImage_shortcut env cfg dst { item with imgDownloaded := some true } fs hsc]
    · simp only [Bool.not_eq_true] at h2
      have hspec := downloadImage_main_spec env cfg dst item fs
        (selectImageBySize env item.imgUrls cfg.maxImageSize (maxNumImgOf cfg item)).1
        (selectImageBySize env item.imgUrls cfg.maxImageSize (maxNumImgOf cfg item)).2
        _ _ _ _ _ h1 rfl h2 rfl rfl rfl rfl
      by_cases hall : (filterDownloaded dst fs
          (selectImageBySize env item.imgUrls cfg.maxImageSize (maxNumImgOf cfg item)).1
          ((if item.imgPaths.isNone then
              { item with imgDownloaded := some false, imgPaths := some [] }
            else item).imgPaths.getD [])).1.all (downloadOne env dst) = true
      · rw [hspec, if_pos hall]
        dsimp only
        rw [downloadImage_of_flag env cfg dst _ _ rfl]
        exact ⟨rfl, fun u hu => absurd hu (List.not_mem_nil u)⟩
      · simp only [Bool.not_eq_true] at hall
        obtain ⟨hA, hB, hC, hD⟩ := second_call_core env cfg dst item fs
          (selectImageBySize env item.imgUrls cfg.maxImageSize (maxNumImgOf cfg item)).1
          (selectImageBySize env item.imgUrls cfg.maxImageSize (maxNumImgOf cfg item)).2
          _ _ _ _ _ h1 rfl h2 rfl rfl rfl rfl hall
        rw [hA]
        dsimp only
        refine ⟨hB, ?_⟩
        intro u hu
        rw [hC] at hu
        exact ⟨(hD u hu).1, (hD u hu).2⟩

/-- Claim C4: if at least one issued download fails, `downloadImage` returns
`false` and leaves `imgDownloaded` falsy, yet `imgPaths` still contains the
derived local path of every download that succeeded, and the immediately
following call issues download requests for exactly those previously
requested locators whose derived path is still missing from the filesystem. -/
theorem downloadImage_partial_failure (env : Env) (cfg : Config) (dst : String)
    (item : Item) (fs : List String)
    (hx : ∃ u ∈ (downloadImage env cfg dst item fs).requested,
      downloadOne env dst u = false) :
    (downloadImage env cfg dst item fs).result = false
    ∧ jsTruthyB (downloadImage env cfg dst item fs).item.imgDownloaded = false
    ∧ (∀ u ∈ (downloadImage env cfg dst item fs).requested, downloadOne env dst u = true →
        derivedPath dst u ∈ (downloadImage env cfg dst item fs).item.imgPaths.getD [])
    ∧ (downloadImage env cfg dst (downloadImage env cfg dst item fs).item
        (downloadImage env cfg dst item fs).fs).requested
      = (downloadImage env cfg dst item fs).requested.filter
          (fun u => !(decide (derivedPath dst u ∈ (downloadImage env cfg dst item fs).fs))) := by
  by_cases h1 : (jsTruthyB item.imgDownloaded || item.imgUrls.isEmpty) = true
  · rw [downloadImage_shortcut env cfg dst item fs h1] at hx
    simp at hx
  · simp only [Bool.not_eq_true] at h1
    by_cases h2 : (selectImageBySize env item.imgUrls cfg.maxImageSize
        (maxNumImgOf cfg item)).1.isEmpty = true
    · rw [downloadImage_selEmpty env cfg dst item fs h1 h2] at hx
      simp at hx
    · simp only [Bool.not_eq_true] at h2
      have hspec := downloadImage_main_spec env cfg dst item fs
        (selectImageBySize env item.imgUrls cfg.maxImageSize (maxNumImgOf cfg item)).1
        (selectImageBySize env item.imgUrls cfg.maxImageSize (maxNumImgOf cfg item)).2
        _ _ _ _ _ h1 rfl h2 rfl rfl rfl rfl
      by_cases hall : (filterDownloaded dst fs
          (selectImageBySize env item.imgUrls cfg.maxImageSize (maxNumImgOf cfg item)).1
          ((if item.imgPaths.isNone then
              { item with imgDownloaded := some false, imgPaths := some [] }
            else item).imgPaths.getD [])).1.all (downloadOne env dst) = true
      · rw [hspec, if_pos hall] at hx
        dsimp only at hx
        obtain ⟨u, hu, hfalse⟩ := hx
        rw [List.all_eq_true.mp hall u hu] at hfalse
        cases hfalse
      · simp only [Bool.not_eq_true] at hall
        have hflag : jsTruthyB item.imgDownloaded = false := (Bool.or_eq_false_iff.mp h1).1
        obtain ⟨hA, hB, hC, hD⟩ := second_call_core env cfg dst item fs
          (selectImageBySize env item.imgUrls cfg.maxImageSize (maxNumImgOf cfg item)).1
          (selectImageBySize env item.imgUrls cfg.maxImageSize (maxNumImgOf cfg item)).2
          _ _ _ _ _ h1 rfl h2 rfl rfl rfl rfl hall
        rw [hA]
        dsimp only
        refine ⟨rfl, ?_, ?_, hC⟩
        · by_cases hp : item.imgPaths = none
          · simp [hp, jsTruthyB]
          · simp [hp, jsTruthyB]
            simpa [jsTruthyB] using hflag
        · intro u hu hok
          exact List.mem_append_right _
            (List.mem_map_of_mem (derivedPath dst) (List.mem_filter.mpr ⟨hu, hok⟩))

/-- Claim C4, witness: with three locators of which `u/2` fails, the
partial-failure theorem applies and the call reports failure. -/
theorem downloadImage_partial_failure_witness :
    (∃ u ∈ (downloadImage envFailU2 cfg0 "d" itemThree []).requested,
      downloadOne envFailU2 "d" u = false)
    ∧ (downloadImage envFailU2 cfg0 "d" itemThree []).result = false :=
  ⟨by decide, (downloadImage_partial_failure envFailU2 cfg0 "d" itemThree [] (by decide)).1⟩

/-- Claim C1, counterexample: a cached record whose `items` is a present but
EMPTY array and whose capture time is fresh.  `isCacheValid` accepts it (a
present array is truthy in JS even when empty), the predicate of the claim
(`specCacheFresh`, which demands non-empty items) rejects it, and `getEntry`
does NOT consult the remote client although the predicate of the claim is false
and `forceLoad` is false. -/
theorem isCacheValid_claim_counterexample :
    isCacheValid (some recEmptyItems) envBase.now envBase.prefsRefreshCircle
        cfg0.defaultRefreshCircle = true
    ∧ specCacheFresh (some recEmptyItems) envBase.now envBase.prefsRefreshCircle
        cfg0.defaultRefreshCircle = false
    ∧ (getEntry envBase cfg0 "a" false (some recEmptyItems) []).remoteCalled = false := by
  decide

/-- Claim C1, amended: the cache-freshness predicate holds iff a cached
record exists, its `items` field is PRESENT (an empty sequence still
qualifies), it has a capture timestamp, and the elapsed time is below the
configured refresh interval (preference override, else default, in minutes);
and for a nonempty source name `getEntry` consults the remote client exactly
when this predicate is false or `forceLoad` is true. -/
theorem isCacheValid_remote_amended (env : Env) (cfg : Config) (name : String)
    (force : Bool) (cached : Option CacheRecord) (fs : List String) (hn : name ≠ "") :
    (isCacheValid cached env.now env.prefsRefreshCircle cfg.defaultRefreshCircle = true ↔
      ∃ c, cached = some c ∧ c.items.isSome = true ∧ ∃ d, c.date = some d ∧
        (env.now : Int) - (d : Int) <
          ((env.prefsRefreshCircle.getD cfg.defaultRefreshCircle : Nat) : Int) * 60000)
    ∧ (getEntry env cfg name force cached fs).remoteCalled
        = (force || !(isCacheValid cached env.now env.prefsRefreshCircle
            cfg.defaultRefreshCircle)) := by
  constructor
  · cases cached with
    | none => simp [isCacheValid]
    | some c =>
      cases hd : c.date with
      | none => simp [isCacheValid, hd]
      | some d => simp [isCacheValid, hd]
  · by_cases hf : force = true
    · rw [hf]
      simp only [getEntry, if_neg hn, Bool.not_true, Bool.false_and, Bool.false_eq_true,
        if_false, Bool.true_or, tryGetTiebaPostWithTimeout]
      cases hfr : env.fetchResult with
      | some l => rfl
      | none =>
        cases cached with
        | none => rfl
        | some c =>
            dsimp only
            split <;> rfl
    · have hf0 : force = false := by
        cases force
        · rfl
        · exact absurd rfl hf
      rw [hf0]
      by_cases hv : isCacheValid cached env.now env.prefsRefreshCircle
          cfg.defaultRefreshCircle = true
      · cases cached with
        | none => simp [isCacheValid] at hv
        | some c =>
          simp only [getEntry, if_neg hn, Bool.not_false, Bool.true_and, hv, if_true,
            Bool.false_or]
          split <;> rfl
      · simp only [Bool.not_eq_true] at hv
        simp only [getEntry, if_neg hn, Bool.not_false, Bool.true_and, hv,
          Bool.false_eq_true, if_false, tryGetTiebaPostWithTimeout, Bool.false_or]
        cases hfr : env.fetchResult with
        | some l => rfl
        | none =>
          cases cached with
          | none => rfl
          | some c =>
            dsimp only
            split <;> rfl

/-- Claim C1, witness: the amended theorem applied at a concrete fresh cache
with a nonempty name. -/
theorem isCacheValid_remote_amended_witness :
    ("a" : String) ≠ ""
    ∧ (getEntry envBase cfg0 "a" false (some recEmptyItems) []).remoteCalled
        = (false || !(isCacheValid (some recEmptyItems) envBase.now
            envBase.prefsRefreshCircle cfg0.defaultRefreshCircle)) :=
  ⟨by decide,
   (isCacheValid_remote_amended envBase cfg0 "a" false (some recEmptyItems) []
     (by decide)).2⟩

/-- Claim C3: if the remote fetch fails or times out (the fetch branch was
taken and the client returned nothing) and a cached record with items and a
capture timestamp exists — even a stale one — then `getEntry` returns
exactly the cached items and cached capture time and writes nothing to the
cache store. -/
theorem getEntry_fallback_preserves_cache (env : Env) (cfg : Config) (name : String)
    (force : Bool) (cached : Option CacheRecord) (fs : List String) (hn : name ≠ "")
    (hbr : force = true ∨ isCacheValid cached env.now env.prefsRefreshCircle
      cfg.defaultRefreshCircle = false)
    (hfetch : env.fetchResult = none)
    (c : CacheRecord) (hc : cached = some c) (l : List Item) (hl : c.items = some l)
    (d : Nat) (hd : c.date = some d) :
    (getEntry env cfg name force cached fs).info = some l
    ∧ (getEntry env cfg name force cached fs).date = some d
    ∧ (getEntry env cfg name force cached fs).writes = [] := by
  have hcond : (!force && isCacheValid cached env.now env.prefsRefreshCircle
      cfg.defaultRefreshCircle) = false := by
    rcases hbr with h | h
    · rw [h]; rfl
    · rw [h]; simp
  rw [hc] at hcond
  simp only [getEntry, if_neg hn, hc, hcond, Bool.false_eq_true, if_false,
    tryGetTiebaPostWithTimeout, hfetch, hl, hd, Option.isSome_some, Bool.and_self, if_true]
  exact ⟨by trivial, by trivial, by trivial⟩

/-- Claim C3, witness: the fallback theorem applied to a forced reload whose
fetch fails while a well-formed cache exists. -/
theorem getEntry_fallback_preserves_cache_witness :
    envBase.fetchResult = none
    ∧ (getEntry envBase cfg0 "a" true (some recDone) []).info = some [itemDone]
    ∧ (getEntry envBase cfg0 "a" true (some recDone) []).writes = [] :=
  ⟨rfl,
   (getEntry_fallback_preserves_cache envBase cfg0 "a" true (some recDone) [] (by decide)
     (Or.inl rfl) rfl recDone rfl [itemDone] rfl 3 rfl).1,
   (getEntry_fallback_preserves_cache envBase cfg0 "a" true (some recDone) [] (by decide)
     (Or.inl rfl) rfl recDone rfl [itemDone] rfl 3 rfl).2.2⟩

/-- Claim C6: for a nonempty source name and a cache answer that is either
absent or well-formed (as every record this code writes is), the returned
`info` is `none` only when no cached record existed and the remote fetch
failed or timed out; and with no prior record and a failing remote client,
`getEntry` returns `info = none` and `date = none`. -/
theorem getEntry_info_null_iff (env : Env) (cfg : Config) (name : String)
    (force : Bool) (cached : Option CacheRecord) (fs : List String) (hn : name ≠ "")
    (hwf : cached = none ∨ ∃ c, cached = some c ∧ c.items.isSome = true
      ∧ c.date.isSome = true) :
    ((getEntry env cfg name force cached fs).info = none →
      cached = none ∧ env.fetchResult = none)
    ∧ (cached = none → env.fetchResult = none →
      (getEntry env cfg name force cached fs).info = none
      ∧ (getEntry env cfg name force cached fs).date = none) := by
  constructor
  · intro hnull
    by_cases hcond : (!force && isCacheValid cached env.now env.prefsRefreshCircle
        cfg.defaultRefreshCircle) = true
    · exfalso
      cases cached with
      | none => simp [isCacheValid] at hcond
      | some c =>
        simp only [getEntry, if_neg hn, hcond, if_true] at hnull
        split at hnull <;> simp at hnull
    · simp only [Bool.not_eq_true] at hcond
      cases hfr : env.fetchResult with
      | some l =>
        exfalso
        simp only [getEntry, if_neg hn, hcond, Bool.false_eq_true, if_false,
          tryGetTiebaPostWithTimeout, hfr] at hnull
        simp at hnull
      | none =>
        rcases hwf with hno | ⟨c, hc, hci, hcd⟩
        · exact ⟨hno, rfl⟩
        · exfalso
          rw [hc] at hnull hcond
          simp only [getEntry, if_neg hn, hcond, Bool.false_eq_true, if_false,
            tryGetTiebaPostWithTimeout, hfr, hci, hcd, Bool.and_self, eq_self_iff_true,
            if_true] at hnull
          rw [hnull] at hci
          simp at hci
  · intro hno hfr
    have hcond : (!force && isCacheValid none env.now env.prefsRefreshCircle
        cfg.defaultRefreshCircle) = false := by
      simp [isCacheValid]
    simp only [getEntry, if_neg hn, hno, hcond, Bool.false_eq_true, if_false,
      tryGetTiebaPostWithTimeout, hfr]
    exact ⟨by trivial, by trivial⟩

/-- Claim C6, witness: no prior record, failing remote client — the theorem
yields `info = none` and `date = none`. -/
theorem getEntry_info_null_iff_witness :
    (getEntry envBase cfg0 "a" false none []).info = none
    ∧ (getEntry envBase cfg0 "a" false none []).date = none :=
  (getEntry_info_null_iff envBase cfg0 "a" false none [] (by decide) (Or.inl rfl)).2 rfl rfl

/-- Claim C2, counterexample: an item with no image URLs is left with
`imgDownloaded` unset by `downloadImage`, yet the record `getEntry` persists
for it carries `allImagesDownloaded = true` — the claimed iff fails. -/
theorem allImagesDownloaded_claim_counterexample :
    (getEntry envFetchNoUrls cfg0 "a" true none []).writes
      = [⟨some [itemNoUrls], some 10, true⟩]
    ∧ (⟨some [itemNoUrls], some 10, true⟩ : CacheRecord).imgAllDownloaded = true
    ∧ ¬ (∀ it ∈ (⟨some [itemNoUrls], some 10, true⟩ : CacheRecord).items.getD [],
        it.imgDownloaded = some true) := by
  decide

/-- Claim C2, amended: for every record `getEntry` persists, provided the
image pass did not time out and directory preparation succeeds, the stored
`allImagesDownloaded` flag is true iff every stored item has
`imgDownloaded = some true` OR has an empty image-locator list. -/
theorem allImagesDownloaded_amended (env : Env) (cfg : Config) (name : String)
    (force : Bool) (cached : Option CacheRecord) (fs : List String)
    (hT : env.imagePassTimeout = false)
    (hP : ∀ fs1, (env.prepare (cfg.imageDownloadDir ++ "/" ++ name) fs1).isSome = true) :
    ∀ r ∈ (getEntry env cfg name force cached fs).writes,
      (r.imgAllDownloaded = true ↔
        ∀ it ∈ r.items.getD [], it.imgDownloaded = some true ∨ it.imgUrls = []) := by
  intro r hr
  by_cases hn : name = ""
  · simp [getEntry, hn] at hr
  · by_cases hcond : (!force && isCacheValid cached env.now env.prefsRefreshCircle
        cfg.defaultRefreshCircle) = true
    · cases cached with
      | none => simp [isCacheValid] at hcond
      | some c =>
        simp only [getEntry, if_neg hn, hcond, if_true] at hr
        by_cases hvd : (!c.imgAllDownloaded) = true
        · rw [if_pos hvd] at hr
          simp only [List.mem_singleton] at hr
          subst hr
          simpa using tryDownloadAll_flag_iff env cfg
            (cfg.imageDownloadDir ++ "/" ++ name) hT (c.items.getD []) fs true (Or.inl rfl)
        · rw [if_neg hvd] at hr
          exact absurd hr (List.not_mem_nil r)
    · simp only [Bool.not_eq_true] at hcond
      cases hfr : env.fetchResult with
      | none =>
        exfalso
        simp only [getEntry, if_neg hn, hcond, Bool.false_eq_true, if_false,
          tryGetTiebaPostWithTimeout, hfr] at hr
        cases cached with
        | none => simp at hr
        | some c =>
          split at hr <;> first
            | (split at hr <;> simp at hr)
            | simp at hr
      | some l =>
        simp only [getEntry, if_neg hn, hcond, Bool.false_eq_true, if_false,
          tryGetTiebaPostWithTimeout, hfr, List.mem_singleton] at hr
        subst hr
        simpa using tryDownloadAll_flag_iff env cfg
          (cfg.imageDownloadDir ++ "/" ++ name) hT l fs false (Or.inr (hP fs))

/-- Claim C2, witness: the amended theorem applied to a fetch returning one
fully downloaded item; the persisted record satisfies the amended iff. -/
theorem allImagesDownloaded_amended_witness :
    envFetchDone.imagePassTimeout = false
    ∧ (∀ r ∈ (getEntry envFetchDone cfg0 "a" true none []).writes,
        (r.imgAllDownloaded = true ↔
          ∀ it ∈ r.items.getD [], it.imgDownloaded = some true ∨ it.imgUrls = [])) :=
  ⟨rfl, allImagesDownloaded_amended envFetchDone cfg0 "a" true none [] rfl (fun _ => rfl)⟩

end TiebaWidget
